import Mathlib

/-!
Verification of the core of the company-management CLI (python package
`company`): the authorization model (roles, permissions, company
memberships) and the category-hierarchy product classification, plus the
session/context layer and the product update operation.

Shallow embedding conventions:
* Python `datetime` values are modelled as `Int` timestamps (minutes for the
  session logic, so that the 10-minute inactivity window of
  `Context.user_logged_in` is the literal `10`).
* Python `float` (product price) is modelled as `Rat`; no claim performs
  arithmetic on it.
* Python objects `Category` hold a `parent` object reference, and parent
  links can be mutated to form cycles.  Object references are modelled by a
  heap: a `List Category` together with `Option Nat` indices into it, which
  is what the closure walk of `Product.__post_init__` traverses.
* Python dataclass `==` is structural equality on fields; all model types
  derive `DecidableEq` and `==` is `decide (a = b)`.
* Stateful properties (`Session.current_user`, `Context.user_logged_in`)
  take the current time `now` explicitly and return the updated state.
-/

namespace CompanyApp

/-- Embeds `Permission` (models.py): a permission code with an optional
description. -/
structure Permission where
  perm_code : String
  perm_description : Option String
deriving DecidableEq

/-- Embeds `Role` (models.py): a named bundle of permissions. -/
structure Role where
  name : String
  permissions : List Permission
deriving DecidableEq

/-- Embeds `User` (models.py): username, stored credential, global roles. -/
structure User where
  username : String
  password_hash : String
  roles : List Role
deriving DecidableEq

/-- Embeds `User.authenticate`: true iff the candidate equals the stored
credential (`self.password_hash == pw`). -/
def User.authenticate (u : User) (pw : String) : Bool :=
  u.password_hash == pw

/-- Embeds `User.has_permission`: some role of the user carries a permission
whose code equals `code` (the nested generator `any`). -/
def User.has_permission (u : User) (code : String) : Bool :=
  u.roles.any (fun role => role.permissions.any (fun perm => code == perm.perm_code))

/-- Embeds `Membership` (models.py): binds a user to a company role with a
join date and an active flag.  `joined_date` is an `Int` timestamp. -/
structure Membership where
  user : User
  role : Role
  joined_date : Int
  active : Bool
deriving DecidableEq

/-- Embeds `Membership.has_permission`: the membership role carries the
code. -/
def Membership.has_permission (m : Membership) (code : String) : Bool :=
  m.role.permissions.any (fun perm => code == perm.perm_code)

/-- Embeds `Category` (models.py): id, name, description and an optional
parent object reference, modelled as an index into a category heap. -/
structure Category where
  cat_id : Int
  name : String
  description : String
  parent : Option Nat
deriving DecidableEq

/-- The set of category ids present in a heap (used only as the termination
measure of the closure walk). -/
def heapIds (heap : List Category) : Finset Int :=
  (heap.map Category.cat_id).toFinset

/-- Embeds the `while` loop of `Product.__post_init__` (models.py lines
244-253): walk `category → category.parent → …`, accumulating `cat_id`
values into a set; stop on a `None` reference or when the current id is
already in the accumulated set (the cycle guard).  The recursion is
accepted by Lean with the measure `(heapIds heap \ acc).card`, which is
exactly the termination argument the cycle guard provides: every
non-stopping step inserts a fresh id drawn from the finite heap. -/
def closureAux (heap : List Category) (cur : Option Nat) (acc : Finset Int) : Finset Int :=
  match cur with
  | none => acc
  | some i =>
    match h : heap[i]? with
    | none => acc
    | some c =>
      if hc : c.cat_id ∈ acc then acc
      else closureAux heap c.parent (insert c.cat_id acc)
termination_by (heapIds heap \ acc).card
decreasing_by
  have hmem : c ∈ heap := List.getElem?_mem h
  have hid : c.cat_id ∈ heapIds heap := by
    simp [heapIds]
    exact ⟨c, hmem, rfl⟩
  rw [Finset.sdiff_insert]
  exact Finset.card_erase_lt_of_mem (Finset.mem_sdiff.mpr ⟨hid, hc⟩)

/-- The cached closure a fresh `Product` computes in `__post_init__`:
the walk started from the product category with an empty set. -/
def categoriesClosure (heap : List Category) (category : Option Nat) : Finset Int :=
  closureAux heap category ∅

/-- The chain of category objects reachable from a reference:
`Reaches heap ref ids` holds when following parent references from `ref`
passes exactly the objects whose ids are `ids`, in order, and ends at a
`None` reference.  An acyclic category chain of a product is such a list. -/
inductive Reaches (heap : List Category) : Option Nat → List Int → Prop where
  | nil : Reaches heap none []
  | cons {i : Nat} {c : Category} {ids : List Int} :
      heap[i]? = some c → Reaches heap c.parent ids →
      Reaches heap (some i) (c.cat_id :: ids)

/-- Embeds `Product` (models.py): descriptive fields, the optional category
reference, and the cached closure `_categories_ids` that `__post_init__`
stores.  Subtypes Yacht/Boat/Motor only add descriptive attributes and are
behaviorally identical, so the base class suffices for the claims. -/
structure Product where
  uuid : String
  name : String
  description : String
  price : Rat
  produced_date : Int
  is_new : Bool
  category : Option Nat
  _categories_ids : Finset Int
deriving DecidableEq

/-- Constructing a `Product` runs `__post_init__`: the cached closure is
computed from the heap as it is at construction time. -/
def mkProduct (heap : List Category) (uuid name description : String) (price : Rat)
    (produced_date : Int) (is_new : Bool) (category : Option Nat) : Product :=
  { uuid := uuid, name := name, description := description, price := price,
    produced_date := produced_date, is_new := is_new, category := category,
    _categories_ids := categoriesClosure heap category }

/-- Embeds `Product.has_category`: membership of the category id in the
cached closure (`category.cat_id in self._categories_ids`). -/
def Product.has_category (p : Product) (c : Category) : Bool :=
  c.cat_id ∈ p._categories_ids

/-- Embeds `Category.get_products`: the list comprehension
`[p for p in all_products if p.has_category(self)]`. -/
def Category.get_products (c : Category) (all_products : List Product) : List Product :=
  all_products.filter (fun p => p.has_category c)

/-- Embeds `Inventory` (models.py): a description label and an ordered list
of products. -/
structure Inventory where
  description : String
  products : List Product
deriving DecidableEq

/-- Embeds `Inventory.get_products_by_category`: delegates to the category
filtering capability. -/
def Inventory.get_products_by_category (inv : Inventory) (category : Category) : List Product :=
  category.get_products inv.products

/-- Embeds `Inventory.get_product`: linear scan for the first exact SKU
match, `None` when absent. -/
def Inventory.get_product (inv : Inventory) (sku : String) : Option Product :=
  inv.products.find? (fun p => p.uuid == sku)

/-- Embeds `Company` (models.py): name, owner, location, one inventory and
the membership list. -/
structure Company where
  name : String
  owner : String
  location : String
  inventory : Inventory
  employees : List Membership
deriving DecidableEq

/-- Python truthiness of the optional role-name list in
`Company.get_employees` (`if not role:` is true for `None` and for `[]`). -/
def roleFilterTruthy (role : Option (List String)) : Bool :=
  match role with
  | none => false
  | some names => !names.isEmpty

/-- Embeds `Company.get_employees`: users of *active* memberships,
optionally restricted to memberships whose role name is in the filter. -/
def Company.get_employees (c : Company) (role : Option (List String)) : List User :=
  if roleFilterTruthy role then
    (c.employees.filter
      (fun m => m.active && (role.getD []).contains m.role.name)).map Membership.user
  else
    (c.employees.filter (fun m => m.active)).map Membership.user

/-- Embeds `Company.add_member`: appends a new membership with
`active = True` (the dataclass default). -/
def Company.add_member (c : Company) (user : User) (role : Role) (joined_date : Int) : Company :=
  { c with employees := c.employees ++ [Membership.mk user role joined_date true] }

/-- Embeds `Company.find_membership`: first membership (insertion order)
whose user equals the given user; no `active` filtering. -/
def Company.find_membership (c : Company) (user : User) : Option Membership :=
  c.employees.find? (fun m => m.user == user)

/-- Embeds `Company.is_member`: `find_membership` returned a result. -/
def Company.is_member (c : Company) (user : User) : Bool :=
  (c.find_membership user).isSome

/-- Embeds `Company.has_permission`: resolve via `find_membership`; no
membership means `False`, otherwise ask the membership role. -/
def Company.has_permission (c : Company) (user : User) (code : String) : Bool :=
  match c.find_membership user with
  | none => false
  | some membership => membership.has_permission code

/-- Embeds `AppData` (data.py): the aggregate root of all entities. -/
structure AppData where
  users : List User
  companies : List Company
  categories : List Category
  roles : List Role

/-- Embeds `AppData.find_role`: first role with the exact name. -/
def AppData.find_role (d : AppData) (role_name : String) : Option Role :=
  d.roles.find? (fun role => role.name == role_name)

/-- Embeds `AppData.find_company`: first company matching the name
case-insensitively. -/
def AppData.find_company (d : AppData) (company_name : String) : Option Company :=
  d.companies.find? (fun company => company.name.toLower == company_name.toLower)

/-- Embeds `AppData.find_category`: first category with the given id. -/
def AppData.find_category (d : AppData) (category_id : Int) : Option Category :=
  d.categories.find? (fun cat => cat.cat_id == category_id)

/-- The `last_visited_date` a fresh `Session()` starts with: the dataclass
default is evaluated once at module import, so it is a fixed constant.  Its
value is irrelevant to every claim (a reset session carries no user), so it
is fixed to `0`. -/
def module_load_time : Int := 0

/-- Embeds `Session` (utils.py): the optional authenticated user, the
optional current company, and the last-access timestamp. -/
structure Session where
  _current_user : Option User
  company : Option Company
  last_visited_date : Int

/-- Embeds the `Session.current_user` property getter: reading it refreshes
the last-access timestamp whenever a user is present, and returns the user.
Returns the read value together with the updated session. -/
def Session.current_user (s : Session) (now : Int) : Option User × Session :=
  match s._current_user with
  | some u => (some u, { s with last_visited_date := now })
  | none => (none, s)

/-- Embeds the `Session.current_user` setter: stores the user and refreshes
the last-access timestamp. -/
def Session.set_current_user (s : Session) (user : User) (now : Int) : Session :=
  { s with _current_user := some user, last_visited_date := now }

/-- Embeds `Context` (utils.py): application data plus the session. -/
structure Context where
  data : AppData
  _session : Session

/-- Embeds `Context.reset_session`: replace the session by a fresh
`Session()` (no user, no company, default timestamp). -/
def Context.reset_session (ctx : Context) : Context :=
  { ctx with _session := Session.mk none none module_load_time }

/-- Embeds `Context.set_user`: delegates to the session setter. -/
def Context.set_user (ctx : Context) (user : User) (now : Int) : Context :=
  { ctx with _session := ctx._session.set_current_user user now }

/-- Embeds `Context.set_company`. -/
def Context.set_company (ctx : Context) (company : Company) : Context :=
  { ctx with _session := { ctx._session with company := some company } }

/-- Embeds the `Context.user_logged_in` property: if the last access is more
than 10 minutes old the session is first reset, then the (possibly reset)
session user is read — which refreshes the timestamp when a user is present
— and compared with `None`.  Returns the boolean together with the updated
context. -/
def Context.user_logged_in (ctx : Context) (now : Int) : Bool × Context :=
  let ctx1 := if ctx._session.last_visited_date < now - 10 then ctx.reset_session else ctx
  let res := ctx1._session.current_user now
  (res.1.isSome, { ctx1 with _session := res.2 })

/-- Outcome of the permission gate of the command layer: the three
distinguishable results of `require_login` / `require_permissions`. -/
inductive AuthResult where
  | notLoggedIn
  | denied
  | allowed
deriving DecidableEq

/-- Embeds the wrapper built by `require_permissions` (utils.py lines
190-216), including the `require_login` gate it stacks on: first evaluate
`ctx.user_logged_in` (which may reset a stale session); when logged in,
check every required code against the global roles of the current user when
no company is selected, and against `Company.has_permission` of the current
company otherwise.  The `for` loop that denies on the first missing code is
the short-circuiting `List.all`.  Re-reading `ctx.current_user` inside the
loop refreshes the timestamp to the same `now` that `user_logged_in` just
wrote, so the resulting state is exactly the state after the login check. -/
def require_permissions_gate (permissions : List String) (ctx : Context) (now : Int) :
    AuthResult × Context :=
  let res := ctx.user_logged_in now
  let ctx1 := res.2
  if res.1 then
    match ctx1._session._current_user, ctx1._session.company with
    | some u, none =>
        (if permissions.all (fun p => u.has_permission p) then .allowed else .denied, ctx1)
    | some u, some co =>
        (if permissions.all (fun p => co.has_permission u p) then .allowed else .denied, ctx1)
    | none, _ => (.notLoggedIn, ctx1)
  else (.notLoggedIn, ctx1)

/-- In-place mutation of the parent link of the category object at heap
index `i` (the post-construction mutation the stale-cache invariant talks
about).  Out-of-range indices leave the heap unchanged. -/
def set_category_parent (heap : List Category) (i : Nat) (newParent : Option Nat) :
    List Category :=
  match heap[i]? with
  | some c => heap.set i { c with parent := newParent }
  | none => heap

/-- The mutable object world the program runs in: the category objects and
the products constructed so far. -/
structure World where
  heap : List Category
  products : List Product

/-- Mutating a parent link touches only the category heap. -/
def World.mutate_parent (w : World) (i : Nat) (newParent : Option Nat) : World :=
  { w with heap := set_category_parent w.heap i newParent }

/-- Constructing a product appends it to the world; its cached closure is
computed from the heap as it is now. -/
def World.add_product (w : World) (uuid name description : String) (price : Rat)
    (produced_date : Int) (is_new : Bool) (category : Option Nat) : World :=
  { w with products :=
      w.products ++ [mkProduct w.heap uuid name description price produced_date is_new category] }

/-- A dynamically-typed Python attribute value, as stored in the instance
dictionary of a `Product`. -/
inductive AttrValue where
  | str (s : String)
  | rat (q : Rat)
  | int (n : Int)
  | bool (b : Bool)
  | catRef (r : Option Nat)
  | idSet (s : Finset Int)
deriving DecidableEq

/-- The instance dictionary of a `Product`: its attribute names mapped to
their values (this is what `hasattr`/`setattr` consult). -/
def Product.dict (p : Product) : String → Option AttrValue := fun k =>
  if k = "uuid" then some (.str p.uuid)
  else if k = "name" then some (.str p.name)
  else if k = "description" then some (.str p.description)
  else if k = "price" then some (.rat p.price)
  else if k = "produced_date" then some (.int p.produced_date)
  else if k = "is_new" then some (.bool p.is_new)
  else if k = "category" then some (.catRef p.category)
  else if k = "_categories_ids" then some (.idSet p._categories_ids)
  else none

/-- Python `hasattr` on the instance dictionary. -/
def hasattr (d : String → Option AttrValue) (k : String) : Bool :=
  (d k).isSome

/-- Python `setattr` on the instance dictionary. -/
def setattr (d : String → Option AttrValue) (k : String) (v : AttrValue) :
    String → Option AttrValue :=
  fun k2 => if k2 = k then some v else d k2

/-- Embeds the loop body of `Product.update`:
`for k, v in kwargs.items(): if hasattr(self, k): setattr(self, k, v)`.
`**kwargs` is a Python dict, so its key list has no duplicates; the fold
processes the items in order. -/
def pyUpdate (d : String → Option AttrValue) (kwargs : List (String × AttrValue)) :
    String → Option AttrValue :=
  kwargs.foldl (fun d kv => if hasattr d kv.1 then setattr d kv.1 kv.2 else d) d

/-- Embeds `Product.update`, acting on the instance dictionary of the
product. -/
def Product.update (p : Product) (kwargs : List (String × AttrValue)) :
    String → Option AttrValue :=
  pyUpdate p.dict kwargs

/-! Concrete sample objects, mirroring `AppData.init_default` (data.py).
They serve as inputs for the concrete scenarios and witnesses. -/

/-- The root category `Vehicle(1)` of the default data set. -/
def vehicle : Category := ⟨1, "Vehicle", "All kind of vehicles", none⟩

/-- `Water Vehicle(100)`, child of `Vehicle` (heap index 0). -/
def water_vehicle : Category := ⟨100, "Water Vehicle", "Boats, yachts, etc", some 0⟩

/-- `Yacht(1000)`, child of `Water Vehicle` (heap index 1). -/
def yacht_cat : Category := ⟨1000, "Yacht", "Luxury yachts", some 1⟩

/-- The sibling category `Parts(2)` with no parent. -/
def parts : Category := ⟨2, "Parts", "Parts for vehicles", none⟩

/-- The heap holding the `Vehicle ← Water Vehicle ← Yacht` chain. -/
def vehicleHeap : List Category := [vehicle, water_vehicle, yacht_cat]

/-- A category object distinct from `vehicle` but carrying the same id, as
returned by an independent data-store lookup. -/
def vehicle_lookalike : Category := ⟨1, "Vehicle copy", "different object", some 2⟩

/-- The yacht product of the default data set, categorised as
`Yacht(1000)` (heap index 2). -/
def yacht1 : Product :=
  mkProduct vehicleHeap "SKU001" "Yacht X" "Luxury yacht" 700000 0 true (some 2)

/-- First node of a cyclic two-category chain: its parent is index 1. -/
def cyclic_c0 : Category := ⟨10, "c0", "cyclic", some 1⟩

/-- Second node of the cycle: its parent points back to index 0. -/
def cyclic_c1 : Category := ⟨20, "c1", "cyclic", some 0⟩

/-- A malformed heap where `c0.parent = c1` and `c1.parent = c0`. -/
def cyclicHeap : List Category := [cyclic_c0, cyclic_c1]

/-- A product referencing the cyclic chain at `c0`. -/
def cyclicProduct : Product :=
  mkProduct cyclicHeap "SKUC" "Cyclic" "cyclic product" 1 0 true (some 0)

/-- The permission carried by the default `user` role. -/
def view_perm : Permission := ⟨"view", some ""⟩

/-- A global admin permission. -/
def admin_perm : Permission := ⟨"admin", some ""⟩

/-- A role granting the global admin permission. -/
def admin_role : Role := ⟨"admin", [admin_perm]⟩

/-- The default `user` role. -/
def user_role : Role := ⟨"user", [view_perm]⟩

/-- A user holding a global admin role. -/
def alice : User := ⟨"Alice", "alice", [admin_role]⟩

/-- A user holding only the default role. -/
def bob : User := ⟨"Bob", "bob", [user_role]⟩

/-- An empty inventory. -/
def empty_inventory : Inventory := ⟨"empty", []⟩

/-- A company with no memberships at all. -/
def boat_store : Company := ⟨"Boat Store", "Trump", "Sydney", empty_inventory, []⟩

/-- An inactive membership of `bob`. -/
def inactive_membership : Membership := ⟨bob, user_role, 0, false⟩

/-- A company whose only membership is the inactive one of `bob`. -/
def club : Company := ⟨"Club", "Owner", "Melbourne", empty_inventory, [inactive_membership]⟩

/-- A small application data store over the sample entities. -/
def sample_data : AppData :=
  ⟨[alice, bob], [boat_store, club], vehicleHeap ++ [parts], [user_role, admin_role]⟩

/-- A product with no category, used by the update scenario. -/
def sampleProduct : Product := mkProduct [] "SKU" "Name" "Desc" 5 0 true none

/-! Helper lemmas about the closure walk. -/

/-- Unfolding: the walk on a `None` reference returns the accumulated set
unchanged. -/
theorem closureAux_none (heap : List Category) (acc : Finset Int) :
    closureAux heap none acc = acc := by
  rw [closureAux]

/-- Unfolding: the walk stops (without inserting again) when the current id
is already in the accumulated set. -/
theorem closureAux_stop (heap : List Category) (i : Nat) (c : Category) (acc : Finset Int)
    (h : heap[i]? = some c) (hmem : c.cat_id ∈ acc) :
    closureAux heap (some i) acc = acc := by
  rw [closureAux]
  split
  · rfl
  · rename_i c2 heq
    rw [h] at heq
    injection heq with hcc
    subst hcc
    simp [hmem]

/-- Unfolding: on a fresh id the walk inserts it and moves to the parent. -/
theorem closureAux_step (heap : List Category) (i : Nat) (c : Category) (acc : Finset Int)
    (h : heap[i]? = some c) (hmem : c.cat_id ∉ acc) :
    closureAux heap (some i) acc = closureAux heap c.parent (insert c.cat_id acc) := by
  rw [closureAux]
  split
  · rename_i heq
    rw [h] at heq
    cases heq
  · rename_i c2 heq
    rw [h] at heq
    injection heq with hcc
    subst hcc
    simp [hmem]

/-- On a duplicate-free chain disjoint from the accumulated set, the walk
adds exactly the chain ids. -/
theorem closureAux_chain {heap : List Category} {ref : Option Nat} {ids : List Int}
    (hr : Reaches heap ref ids) :
    ∀ acc : Finset Int, ids.Nodup → (∀ x ∈ ids, x ∉ acc) →
      closureAux heap ref acc = acc ∪ ids.toFinset := by
  induction hr with
  | nil =>
    intro acc _ _
    simp [closureAux_none]
  | cons hget hrest ih =>
    rename_i i c ids2
    intro acc hnd hdis
    have hc : c.cat_id ∉ acc := hdis _ (by simp)
    have hnd2 : ids2.Nodup := (List.nodup_cons.mp hnd).2
    have hhead : c.cat_id ∉ ids2 := (List.nodup_cons.mp hnd).1
    have hdis2 : ∀ x ∈ ids2, x ∉ insert c.cat_id acc := by
      intro x hx
      simp only [Finset.mem_insert]
      push_neg
      exact ⟨fun heq => hhead (heq ▸ hx), hdis x (List.mem_cons_of_mem _ hx)⟩
    rw [closureAux_step heap i c acc hget hc, ih (insert c.cat_id acc) hnd2 hdis2]
    ext x
    simp

/-- The cached closure of a product whose chain is duplicate-free is the
set of chain ids. -/
theorem categoriesClosure_chain {heap : List Category} {ref : Option Nat} {ids : List Int}
    (hr : Reaches heap ref ids) (hnd : ids.Nodup) :
    categoriesClosure heap ref = ids.toFinset := by
  rw [categoriesClosure, closureAux_chain hr ∅ hnd (by simp)]
  simp

/-- The chain of `yacht1`: Yacht(1000) → Water Vehicle(100) → Vehicle(1). -/
theorem yacht1_reaches : Reaches vehicleHeap (some 2) [1000, 100, 1] :=
  .cons (c := yacht_cat) rfl (.cons (c := water_vehicle) rfl (.cons (c := vehicle) rfl .nil))

/-- The cached closure of `yacht1`. -/
theorem yacht1_closure :
    yacht1._categories_ids = ([1000, 100, 1] : List Int).toFinset :=
  categoriesClosure_chain yacht1_reaches (by decide)

/-- C2: for every product whose category chain is acyclic (a duplicate-free
`Reaches` chain `c0 → c1 → … → cn → None`), the closure cached at
construction equals the set of chain ids, so `has_category` holds exactly
for the categories whose id lies on the chain; and a product constructed
with `category = None` has an empty closure and `has_category` false for
every category. -/
theorem C2_acyclic_chain_closure (heap : List Category) (uuid nm ds : String) (pr : Rat)
    (pd : Int) (inew : Bool) (ref : Option Nat) (ids : List Int)
    (hr : Reaches heap ref ids) (hnd : ids.Nodup) :
    ((mkProduct heap uuid nm ds pr pd inew ref)._categories_ids = ids.toFinset ∧
      ∀ c : Category,
        ((mkProduct heap uuid nm ds pr pd inew ref).has_category c = true ↔ c.cat_id ∈ ids)) ∧
    ((mkProduct heap uuid nm ds pr pd inew none)._categories_ids = ∅ ∧
      ∀ c : Category, (mkProduct heap uuid nm ds pr pd inew none).has_category c = false) := by
  have hcl : (mkProduct heap uuid nm ds pr pd inew ref)._categories_ids = ids.toFinset :=
    categoriesClosure_chain hr hnd
  have hnone : (mkProduct heap uuid nm ds pr pd inew none)._categories_ids = ∅ := by
    simp [mkProduct, categoriesClosure, closureAux_none]
  refine ⟨⟨hcl, fun c => ?_⟩, hnone, fun c => ?_⟩
  · simp [Product.has_category, hcl]
  · simp [Product.has_category, hnone]

/-- Witness for C2 at the `Vehicle(1) ← Water Vehicle(100) ← Yacht(1000)`
chain of the default data set. -/
theorem C2_acyclic_chain_closure_witness :
    Reaches vehicleHeap (some 2) [1000, 100, 1] ∧
    ([1000, 100, 1] : List Int).Nodup ∧
    (mkProduct vehicleHeap "SKU001" "Yacht X" "Luxury yacht" 700000 0 true
        (some 2))._categories_ids = ([1000, 100, 1] : List Int).toFinset :=
  ⟨yacht1_reaches, by decide,
    (C2_acyclic_chain_closure vehicleHeap "SKU001" "Yacht X" "Luxury yacht" 700000 0 true
      (some 2) [1000, 100, 1] yacht1_reaches (by decide)).1.1⟩

/-- C3: constructing a product over the cyclic chain `c0.parent = c1`,
`c1.parent = c0` terminates — the walk `closureAux` is accepted by Lean
with the decreasing measure `(heapIds heap \ acc).card`, which is the
termination argument for every heap — and its cached closure is exactly
the two ids; in general the walk stops on a `None` parent and stops,
without inserting again, on an id already in the accumulated set. -/
theorem C3_cyclic_chain_terminates :
    cyclicProduct._categories_ids = {10, 20} ∧
    (∀ (heap : List Category) (acc : Finset Int), closureAux heap none acc = acc) ∧
    (∀ (heap : List Category) (i : Nat) (c : Category) (acc : Finset Int),
      heap[i]? = some c → c.cat_id ∈ acc → closureAux heap (some i) acc = acc) := by
  refine ⟨?_, closureAux_none, closureAux_stop⟩
  show categoriesClosure cyclicHeap (some 0) = {10, 20}
  rw [categoriesClosure, closureAux_step cyclicHeap 0 cyclic_c0 ∅ rfl (by decide)]
  show closureAux cyclicHeap (some 1) (insert 10 ∅) = {10, 20}
  rw [closureAux_step cyclicHeap 1 cyclic_c1 (insert 10 ∅) rfl (by decide)]
  show closureAux cyclicHeap (some 0) (insert 20 (insert 10 ∅)) = {10, 20}
  rw [closureAux_stop cyclicHeap 0 cyclic_c0 (insert 20 (insert 10 ∅)) rfl (by decide)]
  decide

/-- Witness for C3: the cyclic closure value, the walk stopping at a `None`
reference, and the walk stopping on the already-seen id `10` at heap
index 0. -/
theorem C3_cyclic_chain_terminates_witness :
    cyclicProduct._categories_ids = {10, 20} ∧
    closureAux cyclicHeap none {10} = {10} ∧
    (cyclicHeap[0]? = some cyclic_c0 ∧ cyclic_c0.cat_id ∈ ({10, 20} : Finset Int) ∧
      closureAux cyclicHeap (some 0) {10, 20} = {10, 20}) :=
  ⟨C3_cyclic_chain_terminates.1,
    C3_cyclic_chain_terminates.2.1 cyclicHeap {10},
    rfl, by decide,
    C3_cyclic_chain_terminates.2.2 cyclicHeap 0 cyclic_c0 {10, 20} rfl (by decide)⟩

/-- C4: `Category.get_products` returns the subsequence (`Sublist`, hence
input order preserved) of the candidates whose cached closure contains the
category id; concretely, for the `Vehicle(1) ← Water Vehicle(100) ←
Yacht(1000)` tree and the yacht product, `Vehicle` lists the product and
the sibling `Parts(2)` lists nothing. -/
theorem C4_get_products_filters_by_closure :
    (∀ (c : Category) (ps : List Product),
      (Category.get_products c ps).Sublist ps ∧
      ∀ p : Product, p ∈ Category.get_products c ps ↔ p ∈ ps ∧ c.cat_id ∈ p._categories_ids) ∧
    Category.get_products vehicle [yacht1] = [yacht1] ∧
    Category.get_products parts [yacht1] = [] := by
  refine ⟨fun c ps => ⟨List.filter_sublist ps, fun p => ?_⟩, ?_, ?_⟩
  · simp [Category.get_products, List.mem_filter, Product.has_category]
  · simp [Category.get_products, Product.has_category, yacht1_closure, vehicle]
  · simp [Category.get_products, Product.has_category, yacht1_closure, parts]

/-- C1: a user without any membership in a company gets `False` from
`Company.has_permission` for every code, whatever global roles the user
holds; and with a current company set, the permission gate decides purely
from `Company.has_permission` over the required codes — the global roles of
the user do not occur in the decision. -/
theorem C1_company_scope_ignores_global_roles :
    (∀ (c : Company) (u : User) (code : String),
      (∀ m ∈ c.employees, m.user ≠ u) → c.has_permission u code = false) ∧
    (∀ (d : AppData) (u : User) (co : Company) (t now : Int) (perms : List String),
      ¬ t < now - 10 →
      (require_permissions_gate perms ⟨d, Session.mk (some u) (some co) t⟩ now).1 =
        if perms.all (fun p => co.has_permission u p) then AuthResult.allowed
        else AuthResult.denied) := by
  constructor
  · intro c u code hno
    have hfind : c.find_membership u = none := by
      rw [Company.find_membership, List.find?_eq_none]
      intro m hm
      simp [hno m hm]
    rw [Company.has_permission, hfind]
  · intro d u co t now perms ht
    simp [require_permissions_gate, Context.user_logged_in, Context.reset_session,
      Session.current_user, ht]

/-- Witness for C1: `alice` holds a global `admin` role but has no
membership in `boat_store`, so the company denies `admin`, and the gate
with `boat_store` as current company decides from the company check. -/
theorem C1_company_scope_ignores_global_roles_witness :
    (∀ m ∈ boat_store.employees, m.user ≠ alice) ∧
    boat_store.has_permission alice "admin" = false ∧
    ¬ (0 : Int) < 0 - 10 ∧
    (require_permissions_gate ["admin"]
        ⟨sample_data, Session.mk (some alice) (some boat_store) 0⟩ 0).1 =
      if ["admin"].all (fun p => boat_store.has_permission alice p) then AuthResult.allowed
      else AuthResult.denied :=
  ⟨by decide,
    C1_company_scope_ignores_global_roles.1 boat_store alice "admin" (by decide),
    by decide,
    C1_company_scope_ignores_global_roles.2 sample_data alice boat_store 0 0 ["admin"]
      (by decide)⟩

/-- C5: when the last access lies more than 10 minutes in the past, the
login check first resets the session — both the user and the company become
`none` — and then reports not-logged-in, even when a user reference was
present before the check. -/
theorem C5_stale_session_reports_logged_out (d : AppData) (s : Session) (now : Int)
    (h : s.last_visited_date < now - 10) :
    (Context.user_logged_in ⟨d, s⟩ now).1 = false ∧
    ((Context.user_logged_in ⟨d, s⟩ now).2)._session._current_user = none ∧
    ((Context.user_logged_in ⟨d, s⟩ now).2)._session.company = none := by
  simp [Context.user_logged_in, Context.reset_session, Session.current_user, h]

/-- Witness for C5: a session last visited at `now − 11` minutes holding a
user and a company reports not-logged-in and comes out cleared. -/
theorem C5_stale_session_reports_logged_out_witness :
    ((-11 : Int) < 0 - 10) ∧
    (Context.user_logged_in
        ⟨sample_data, Session.mk (some alice) (some boat_store) (-11)⟩ 0).1 = false ∧
    ((Context.user_logged_in
        ⟨sample_data, Session.mk (some alice) (some boat_store) (-11)⟩ 0).2)._session._current_user
      = none := by
  have h := C5_stale_session_reports_logged_out sample_data
    (Session.mk (some alice) (some boat_store) (-11)) 0 (by decide)
  exact ⟨by decide, h.1, h.2.1⟩

/-- C6: membership resolution (`find_membership`) does not filter on the
`active` flag, so a user whose only memberships are inactive is still a
member and still gets the permissions of the first matching membership,
while `get_employees` (which does filter on `active`) omits the user. -/
theorem C6_inactive_membership_still_grants (c : Company) (u : User) (m0 : Membership)
    (hfind : c.find_membership u = some m0) (hinact : m0.active = false)
    (hall : ∀ m ∈ c.employees, m.user = u → m.active = false) :
    c.is_member u = true ∧
    (∀ code : String, c.has_permission u code = m0.has_permission code) ∧
    u ∉ c.get_employees none ∧
    (∀ (c2 : Company) (u2 : User),
      u2 ∈ c2.get_employees none ↔ ∃ m ∈ c2.employees, m.active = true ∧ m.user = u2) := by
  refine ⟨?_, ?_, ?_, ?_⟩
  · rw [Company.is_member, hfind]
    rfl
  · intro code
    rw [Company.has_permission, hfind]
  · intro hmem
    rw [Company.get_employees] at hmem
    simp [roleFilterTruthy] at hmem
    obtain ⟨m, ⟨hm, hact⟩, huser⟩ := hmem
    rw [hall m hm huser] at hact
    cases hact
  · intro c2 u2
    simp [Company.get_employees, roleFilterTruthy, List.mem_map, List.mem_filter, and_assoc]

/-- Witness for C6: `bob` has only an inactive membership in `club`; he is
a member, the membership role still answers the permission check, and he is
absent from the employee listing. -/
theorem C6_inactive_membership_still_grants_witness :
    club.find_membership bob = some inactive_membership ∧
    inactive_membership.active = false ∧
    (∀ m ∈ club.employees, m.user = bob → m.active = false) ∧
    club.is_member bob = true ∧
    club.has_permission bob "view" = inactive_membership.has_permission "view" ∧
    bob ∉ club.get_employees none := by
  have h := C6_inactive_membership_still_grants club bob inactive_membership
    (by decide) rfl (by decide)
  exact ⟨by decide, rfl, by decide, h.1, h.2.1 "view", h.2.2.1⟩

/-- C7: the cached closure is immutable after construction.  Mutating a
parent link touches only the category heap, never the constructed products
— in particular a product added before the mutation still carries the
closure computed from the pre-mutation heap — and `has_category` reads
only the id of the category object handed to it, so a mutated category
object tests exactly as before. -/
theorem C7_cached_closure_immutable :
    (∀ (w : World) (i : Nat) (np : Option Nat),
      (w.mutate_parent i np).products = w.products) ∧
    (∀ (w : World) (uuid nm ds : String) (pr : Rat) (pd : Int) (inew : Bool)
        (ref : Option Nat) (i : Nat) (np : Option Nat),
      ((w.add_product uuid nm ds pr pd inew ref).mutate_parent i np).products =
        w.products ++ [mkProduct w.heap uuid nm ds pr pd inew ref]) ∧
    (∀ (p : Product) (c : Category) (np : Option Nat),
      p.has_category { c with parent := np } = p.has_category c) :=
  ⟨fun _ _ _ => rfl, fun _ _ _ _ _ _ _ _ _ _ => rfl, fun _ _ _ => rfl⟩

/-! Helper lemmas about the Python attribute update. -/

/-- Unfolding one step of the update fold. -/
theorem pyUpdate_cons (d : String → Option AttrValue) (kv : String × AttrValue)
    (rest : List (String × AttrValue)) :
    pyUpdate d (kv :: rest) =
      pyUpdate (if hasattr d kv.1 then setattr d kv.1 kv.2 else d) rest :=
  rfl

/-- Keys that do not occur in the mapping keep their value. -/
theorem pyUpdate_frame (kwargs : List (String × AttrValue)) (k : String) :
    ∀ d : String → Option AttrValue, k ∉ kwargs.map Prod.fst →
      pyUpdate d kwargs k = d k := by
  induction kwargs with
  | nil =>
    intro d _
    rfl
  | cons kv rest ih =>
    intro d h
    have hne : k ≠ kv.1 := by
      intro heq
      exact h (by simp [heq])
    have hrest : k ∉ rest.map Prod.fst := fun hm => h (by simp [hm])
    rw [pyUpdate_cons, ih _ hrest]
    by_cases hb : hasattr d kv.1 = true
    · simp [hb, setattr, hne]
    · simp [hb]

/-- An attribute absent from the dictionary stays absent: unknown keys in
the mapping are skipped, never created. -/
theorem pyUpdate_absent (kwargs : List (String × AttrValue)) (k : String) :
    ∀ d : String → Option AttrValue, d k = none → pyUpdate d kwargs k = none := by
  induction kwargs with
  | nil =>
    intro d h
    exact h
  | cons kv rest ih =>
    intro d h
    rw [pyUpdate_cons]
    by_cases hb : hasattr d kv.1 = true
    · apply ih
      have hne : k ≠ kv.1 := by
        intro heq
        rw [heq] at h
        simp [hasattr, h] at hb
      simp [hb, setattr, hne, h]
    · simp [hb]
      exact ih d h

/-- An entry whose key names an existing attribute is applied. -/
theorem pyUpdate_set (kwargs : List (String × AttrValue)) (k : String) (v : AttrValue) :
    ∀ d : String → Option AttrValue, (kwargs.map Prod.fst).Nodup →
      (k, v) ∈ kwargs → (d k).isSome = true → pyUpdate d kwargs k = some v := by
  induction kwargs with
  | nil =>
    intro d _ hmem _
    simp at hmem
  | cons kv rest ih =>
    intro d hnd hmem hk
    rw [pyUpdate_cons]
    rcases List.mem_cons.mp hmem with heq | hmem2
    · rw [← heq] at hnd ⊢
      have hb : hasattr d k = true := by simp [hasattr, hk]
      simp only [hb, if_true]
      have hkeys : k ∉ rest.map Prod.fst := by
        have hnd2 : (k :: rest.map Prod.fst).Nodup := by
          rw [List.map_cons] at hnd
          exact hnd
        exact (List.nodup_cons.mp hnd2).1
      rw [pyUpdate_frame rest k _ hkeys]
      simp [setattr]
    · have hkne : k ≠ kv.1 := by
        intro heqk
        have hin : k ∈ rest.map Prod.fst := List.mem_map_of_mem Prod.fst hmem2
        rw [heqk] at hin
        exact (List.nodup_cons.mp hnd).1 hin
      have hnd2 := (List.nodup_cons.mp hnd).2
      by_cases hb : hasattr d kv.1 = true
      · simp only [hb, if_true]
        apply ih _ hnd2 hmem2
        simp [setattr, hkne, hk]
      · simp only [hb, if_false]
        exact ih d hnd2 hmem2 hk

/-- C8: for every product and attribute mapping (duplicate-free keys, as
Python keyword arguments are), `update` sets exactly the entries whose key
names an existing attribute, leaves absent attributes absent (unknown keys
are ignored, no error — the embedded operation is total), and keeps every
attribute not named in the mapping unchanged. -/
theorem C8_update_sets_known_ignores_unknown (p : Product)
    (kwargs : List (String × AttrValue)) (hnd : (kwargs.map Prod.fst).Nodup) :
    (∀ k v, (k, v) ∈ kwargs → (p.dict k).isSome = true → p.update kwargs k = some v) ∧
    (∀ k, p.dict k = none → p.update kwargs k = none) ∧
    (∀ k, k ∉ kwargs.map Prod.fst → p.update kwargs k = p.dict k) :=
  ⟨fun k v hm hk => pyUpdate_set kwargs k v p.dict hnd hm hk,
    fun k hk => pyUpdate_absent kwargs k p.dict hk,
    fun k hk => pyUpdate_frame kwargs k p.dict hk⟩

/-- Witness for C8: updating `name` (existing) and `foo` (unknown) on the
sample product renames it, creates no `foo` attribute, and leaves `price`
untouched. -/
theorem C8_update_sets_known_ignores_unknown_witness :
    (([("name", AttrValue.str "Renamed"), ("foo", AttrValue.int 7)].map Prod.fst).Nodup) ∧
    ("name", AttrValue.str "Renamed") ∈
      [("name", AttrValue.str "Renamed"), ("foo", AttrValue.int 7)] ∧
    (sampleProduct.dict "name").isSome = true ∧
    sampleProduct.update [("name", AttrValue.str "Renamed"), ("foo", AttrValue.int 7)] "name"
      = some (AttrValue.str "Renamed") ∧
    sampleProduct.dict "foo" = none ∧
    sampleProduct.update [("name", AttrValue.str "Renamed"), ("foo", AttrValue.int 7)] "foo"
      = none ∧
    "price" ∉ ([("name", AttrValue.str "Renamed"), ("foo", AttrValue.int 7)].map Prod.fst) ∧
    sampleProduct.update [("name", AttrValue.str "Renamed"), ("foo", AttrValue.int 7)] "price"
      = sampleProduct.dict "price" := by
  have h := C8_update_sets_known_ignores_unknown sampleProduct
    [("name", AttrValue.str "Renamed"), ("foo", AttrValue.int 7)] (by decide)
  exact ⟨by decide, by decide, by decide,
    h.1 "name" (AttrValue.str "Renamed") (by decide) (by decide),
    by decide, h.2.1 "foo" (by decide), by decide, h.2.2 "price" (by decide)⟩

/-- C9: `authenticate` returns true exactly when the candidate equals the
stored credential.  The embedded operation has type
`User → String → Bool`: it takes no session and returns none, so it cannot
mutate session state — a wrong credential simply yields `false`. -/
theorem C9_authenticate_exact_match (u : User) (pw : String) :
    u.authenticate pw = true ↔ pw = u.password_hash := by
  rw [User.authenticate, beq_iff_eq]
  exact eq_comm

/-- C10: category membership is decided by `cat_id` alone: two category
objects with equal ids classify every product identically, and a category
object found by id in the data store (a different object from the actual
ancestor of the product) filters any candidate list exactly as any other
object with that id would. -/
theorem C10_category_membership_by_id :
    (∀ (p : Product) (c c2 : Category), c.cat_id = c2.cat_id →
      p.has_category c = p.has_category c2) ∧
    (∀ (d : AppData) (cid : Int) (c0 : Category), d.find_category cid = some c0 →
      c0.cat_id = cid ∧
      ∀ (c2 : Category) (ps : List Product), c2.cat_id = cid →
        Category.get_products c0 ps = Category.get_products c2 ps) := by
  have hhc : ∀ (p : Product) (c c2 : Category), c.cat_id = c2.cat_id →
      p.has_category c = p.has_category c2 := by
    intro p c c2 h
    simp [Product.has_category, h]
  refine ⟨hhc, ?_⟩
  intro d cid c0 hfind
  rw [AppData.find_category] at hfind
  have hid : c0.cat_id = cid := by
    have := List.find?_some hfind
    simpa using this
  refine ⟨hid, fun c2 ps h2 => ?_⟩
  rw [Category.get_products, Category.get_products]
  apply List.filter_congr
  intro p _
  exact hhc p c0 c2 (by rw [hid, h2])

/-- Witness for C10: the data-store lookup of id 1 returns `vehicle`, and a
lookalike object with id 1 but different name and parent classifies and
filters `yacht1` identically. -/
theorem C10_category_membership_by_id_witness :
    vehicle.cat_id = vehicle_lookalike.cat_id ∧
    yacht1.has_category vehicle = yacht1.has_category vehicle_lookalike ∧
    sample_data.find_category 1 = some vehicle ∧
    Category.get_products vehicle [yacht1] = Category.get_products vehicle_lookalike [yacht1] := by
  have h := C10_category_membership_by_id
  exact ⟨rfl, h.1 yacht1 vehicle vehicle_lookalike rfl, by decide,
    (h.2 sample_data 1 vehicle (by decide)).2 vehicle_lookalike [yacht1] rfl⟩

end CompanyApp
